import Mathlib

/- Verification of the co-occurrence graph / PageRank pipeline of src/app.py.
   build_graph, the main pipeline gate, the search parsing, the node styling
   loop and the top-N graph filtering are translated from the source.  The
   importance ranker itself (the nx.pagerank call at src/app.py:143) lives in
   an external library, so it is modelled from the spec (section 4.2). -/

namespace PaperApp

/-- Undirected edge insertion, as networkx Graph.add_edge: the adjacency
relation is symmetric, so both orientations of the pair are recorded. -/
def addEdge (E : Finset (String × String)) (a b : String) : Finset (String × String) :=
  insert (a, b) (insert (b, a) E)

/-- Body of the inner loop of build_graph (src/app.py:100-102): for an offset
j, add an edge between words[i] and words[i+j] unless the two terms are equal.
Inside the loops of build_graph both indices are always in bounds, so the
List.getD default is never consulted. -/
def innerStep (words : List String) (i : Nat) (E : Finset (String × String)) (j : Nat) :
    Finset (String × String) :=
  if words.getD i "" ≠ words.getD (i + j) "" then
    addEdge E (words.getD i "") (words.getD (i + j) "")
  else E

/-- build_graph (src/app.py:97-103): for i in range(len(words) - window_size),
for j in range(1, window_size + 1), add the edge (words[i], words[i+j]) when
the two terms differ.  Python's range is empty when its bound is non-positive,
which the Int.toNat coercions reproduce. -/
def build_graph (words : List String) (window_size : Int) : Finset (String × String) :=
  List.foldl
    (fun E i => List.foldl (innerStep words i) E (List.range' 1 window_size.toNat))
    ∅ (List.range ((words.length : Int) - window_size).toNat)

/-- The node set of the built graph: networkx creates a node the first time it
appears in an added edge; since both orientations are stored, the first
components of the stored pairs cover every endpoint. -/
def nodesOf (G : Finset (String × String)) : Finset String :=
  G.image Prod.fst

/-- Modelled from the spec: the neighbor set of a node in the undirected
graph (section 4.2 treats each undirected edge as bidirectional).  The
implementation behind the nx.pagerank call at src/app.py:143 is an external
library, so the ranker and its graph accessors are modelled from the spec. -/
def neighbors (G : Finset (String × String)) (v : String) : Finset String :=
  (nodesOf G).filter (fun u => (v, u) ∈ G)

/-- Modelled from the spec: the degree of a node. -/
def degree (G : Finset (String × String)) (v : String) : Nat :=
  (neighbors G v).card

/-- Modelled from the spec: damping factor d = 0.85 (section 4.2). -/
def damping : ℚ := 85 / 100

/-- Modelled from the spec: convergence tolerance 1e-6 on the L1 change
(section 4.2). -/
def tol : ℚ := 1 / 1000000

/-- Modelled from the spec: iteration cap 100 (section 4.2). -/
def maxIter : Nat := 100

/-- Modelled from the spec: one PageRank power-iteration step (section 4.2):
every node receives the teleport share (1-d)/N plus d times the sum of its
neighbors' scores split evenly over their degrees; the mass of degree-0
nodes is defensively redistributed uniformly over all nodes. -/
def powerStep (G : Finset (String × String)) (x : String → ℚ) : String → ℚ :=
  fun v =>
    (1 - damping) / ((nodesOf G).card : ℚ) +
      damping * ((∑ u in neighbors G v, x u / (degree G u : ℚ)) +
        (∑ u in (nodesOf G).filter (fun u => degree G u = 0), x u) / ((nodesOf G).card : ℚ))

/-- Modelled from the spec: the L1 norm of the score-vector change between
iterations (section 4.2). -/
def l1diff (S : Finset String) (x y : String → ℚ) : ℚ :=
  ∑ v in S, |x v - y v|

/-- Modelled from the spec: the uniform initial score 1 / node count
(section 4.2). -/
def uniform (G : Finset (String × String)) : String → ℚ :=
  fun _ => 1 / ((nodesOf G).card : ℚ)

/-- Modelled from the spec: the capped iteration (section 4.2): compute the
next iterate, stop early once the L1 change falls below tolerance, and when
the fuel runs out return the last iterate — no error path exists. -/
def pagerankLoop (G : Finset (String × String)) : Nat → (String → ℚ) → (String → ℚ)
  | 0, x => x
  | n + 1, x =>
    if l1diff (nodesOf G) (powerStep G x) x < tol then powerStep G x
    else pagerankLoop G n (powerStep G x)

/-- Modelled from the spec: the ranker invoked as nx.pagerank(G) at
src/app.py:143, per spec section 4.2: uniform start, damping 0.85,
tolerance 1e-6, at most 100 iterations. -/
def pagerank (G : Finset (String × String)) : String → ℚ :=
  pagerankLoop G maxIter (uniform G)

/-- search_terms (src/app.py:204-208): split the search box input on
commas, strip whitespace, lowercase, and drop entries that are empty after
stripping. -/
def search_terms_of (search_input : String) : List String :=
  (search_input.splitOn ",").filterMap
    (fun w => if w.trim ≠ "" then some w.trim.toLower else none)

/-- The visual attributes assigned in the styling loop (src/app.py:228-243).
The tooltip string (node['title']) is presentation-only float formatting
with no further logic and is not modelled. -/
structure NodeStyle where
  size : ℚ
  physics : Bool
  color : String
  borderWidth : Option Nat
deriving Repr, DecidableEq

/-- The styling loop body (src/app.py:228-243): look the word up in the
score map with default 0.001, set the default style, then override color,
size and border when the word matches a search term. -/
def style_node (pr : String → Option ℚ) (search_terms : List String) (word : String) :
    NodeStyle :=
  let score := (pr word).getD (1 / 1000)
  let base : NodeStyle :=
    { size := score * 1000, physics := false, color := "#97C2FC", borderWidth := none }
  if word ∈ search_terms then
    { base with color := "#FF4B4B", size := score * 1600, borderWidth := some 3 }
  else base

/-- The default top-N selection (src/app.py:190): the first max_words terms
of the ranked table. -/
def top_words (ranked : List String) (max_words : Nat) : List String :=
  ranked.take max_words

/-- G_vis (src/app.py:210): networkx G.subgraph(selected) keeps exactly the
nodes of G that are in the selection; when the selection list is empty the
full graph is used.  Only the node set is modelled — the view claims below
concern node presence. -/
def vis_nodes (G : Finset (String × String)) (selected : List String) : Finset String :=
  if selected = [] then nodesOf G else (nodesOf G).filter (fun v => v ∈ selected)

/-- The node set displayed with no explicit multiselect override: the
default selection of the multiselect is exactly top_words
(src/app.py:192-196). -/
def default_view_nodes (G : Finset (String × String)) (ranked : List String) (cutoff : Nat) :
    Finset String :=
  vis_nodes G (top_words ranked cutoff)

/-- The cached per-document state (src/app.py:149-154).  The sorted table
df is not modelled: its tie order is produced inside the pandas sort. -/
structure PaperData where
  graph : Finset (String × String)
  pagerank : String → ℚ
  count : Nat

/-- The per-file processing gate (src/app.py:141-155): a document is built
and ranked only when it has more than 5 cleaned words; otherwise no entry is
created. -/
def process_file (words : List String) (window_size : Int) : Option PaperData :=
  if words.length > 5 then
    some { graph := build_graph words window_size,
           pagerank := pagerank (build_graph words window_size),
           count := words.length }
  else none

/-- What a single-document session renders (src/app.py:158 and 265-266):
the results view when the document was processed, otherwise the
informational st.info message. -/
inductive Display where
  | info : Display
  | results : PaperData → Display

/-- The top-level branch of the display for a single uploaded document. -/
def app_display (words : List String) (window_size : Int) : Display :=
  match process_file words window_size with
  | some d => Display.results d
  | none => Display.info

/-- A fold that only ever enlarges the accumulating edge set contains its
starting set. -/
theorem foldl_grow_subset {α β : Type} [DecidableEq α] (f : Finset α → β → Finset α)
    (hf : ∀ E b, E ⊆ f E b) :
    ∀ (l : List β) (E : Finset α), E ⊆ List.foldl f E l := by
  intro l
  induction l with
  | nil => intro E; simp
  | cons b t ih => intro E; exact (hf E b).trans (ih (f E b))

/-- If some list element unconditionally inserts e, and the fold never
removes anything, then e is in the fold's result. -/
theorem mem_foldl_of_hit {α β : Type} [DecidableEq α] (f : Finset α → β → Finset α)
    (hf : ∀ E b, E ⊆ f E b) (e : α) (b₀ : β) (he : ∀ E, e ∈ f E b₀) :
    ∀ (l : List β) (E : Finset α), b₀ ∈ l → e ∈ List.foldl f E l := by
  intro l
  induction l with
  | nil => intro E h; cases h
  | cons b t ih =>
    intro E hb
    rcases List.mem_cons.mp hb with h | h
    · subst h
      exact foldl_grow_subset f hf t (f E b₀) (he E)
    · exact ih (f E b) h

/-- Elimination principle for membership in a fold: every element of the
result either was in the start set or was produced by one step. -/
theorem foldl_mem_induction {α β : Type} (f : Finset α → β → Finset α) (P : α → Prop) :
    ∀ (l : List β) (E : Finset α), (∀ e ∈ E, P e) →
      (∀ E' b, b ∈ l → (∀ e ∈ E', P e) → ∀ e ∈ f E' b, P e) →
      ∀ e ∈ List.foldl f E l, P e := by
  intro l
  induction l with
  | nil => intro E hE _ e he; exact hE e he
  | cons b t ih =>
    intro E hE hstep e he
    exact ih (f E b) (hstep E b (List.mem_cons_self b t) hE)
      (fun E' b' hb' => hstep E' b' (List.mem_cons_of_mem b hb')) e he

/-- Each inner-loop step only enlarges the edge set. -/
theorem innerStep_grow (words : List String) (i : Nat) :
    ∀ (E : Finset (String × String)) (j : Nat), E ⊆ innerStep words i E j := by
  intro E j
  unfold innerStep addEdge
  split
  · exact (Finset.subset_insert _ _).trans (Finset.subset_insert _ _)
  · exact Finset.Subset.refl E

/-- Exact characterisation of the edges of build_graph: e is an edge iff it
is one of the two orientations of a pair (words[i], words[i+j]) of distinct
terms with i ranging over the first len - window_size positions and offset
1 ≤ j ≤ window_size. -/
theorem mem_build_graph (words : List String) (w : Int) (e : String × String) :
    e ∈ build_graph words w ↔
      ∃ i j : Nat, i < ((words.length : Int) - w).toNat ∧ 1 ≤ j ∧ j ≤ w.toNat ∧
        words.getD i "" ≠ words.getD (i + j) "" ∧
        (e = (words.getD i "", words.getD (i + j) "") ∨
         e = (words.getD (i + j) "", words.getD i "")) := by
  constructor
  · intro he
    refine foldl_mem_induction _
      (fun e => ∃ i j : Nat, i < ((words.length : Int) - w).toNat ∧ 1 ≤ j ∧ j ≤ w.toNat ∧
        words.getD i "" ≠ words.getD (i + j) "" ∧
        (e = (words.getD i "", words.getD (i + j) "") ∨
         e = (words.getD (i + j) "", words.getD i ""))) _ _ (by simp) ?_ e he
    intro E' i hi hP e' he'
    refine foldl_mem_induction _ _ _ _ hP ?_ e' he'
    intro E'' j hj hP' e'' he''
    rw [List.mem_range'_1] at hj
    rw [List.mem_range] at hi
    unfold innerStep addEdge at he''
    split at he''
    · rcases Finset.mem_insert.mp he'' with h | h
      · exact ⟨i, j, hi, hj.1, by omega, by assumption, Or.inl h⟩
      · rcases Finset.mem_insert.mp h with h2 | h2
        · exact ⟨i, j, hi, hj.1, by omega, by assumption, Or.inr h2⟩
        · exact hP' e'' h2
    · exact hP' e'' he''
  · rintro ⟨i, j, hi, hj1, hjw, hne, hor⟩
    unfold build_graph
    refine mem_foldl_of_hit _ ?_ e i ?_ _ _ (List.mem_range.mpr hi)
    · intro E b
      exact foldl_grow_subset _ (innerStep_grow words b) _ E
    · intro E
      refine mem_foldl_of_hit _ (innerStep_grow words i) e j ?_ _ _ ?_
      · intro E'
        unfold innerStep addEdge
        rw [if_pos hne]
        rcases hor with h | h
        · rw [h]; exact Finset.mem_insert_self _ _
        · rw [h]; exact Finset.mem_insert_of_mem (Finset.mem_insert_self _ _)
      · rw [List.mem_range'_1]
        omega

/-- C1 (counterexample): the claim quantifies over every position i with
i + j in bounds, but build_graph only lets i range over
range(len(words) - window_size) (src/app.py:99).  For tokens ["a","b","c"]
and window 2 the in-bounds pair at i = 1, j = 1 — ("b","c"), two distinct
terms one position apart — is never examined, so the edge is absent. -/
theorem claim_all_window_pairs_cex :
    1 + 1 < (["a", "b", "c"] : List String).length ∧
    (["a", "b", "c"] : List String).getD 1 "" ≠ (["a", "b", "c"] : List String).getD (1 + 1) "" ∧
    ((["a", "b", "c"] : List String).getD 1 "", (["a", "b", "c"] : List String).getD (1 + 1) "")
      ∉ build_graph ["a", "b", "c"] 2 := by
  refine ⟨by decide, by decide, ?_⟩
  decide

/-- C1 (amended): build_graph adds the edge (words[i], words[i+j]) for every
pair of distinct terms with offset 1 ≤ j ≤ window_size whose LEFT index
satisfies i + window_size < len(words) — i.e. i ranges only over the first
len(words) - window_size positions, so co-occurring pairs whose left index
falls in the final window of the sequence are dropped. -/
theorem build_graph_adds_window_pairs (words : List String) (w : Int) (i j : Nat)
    (hj1 : 1 ≤ j) (hjw : (j : Int) ≤ w) (hi : (i : Int) + w < (words.length : Int))
    (hne : words.getD i "" ≠ words.getD (i + j) "") :
    (words.getD i "", words.getD (i + j) "") ∈ build_graph words w := by
  refine (mem_build_graph words w _).mpr ⟨i, j, ?_, hj1, ?_, hne, Or.inl rfl⟩
  · omega
  · omega

/-- C1 (witness): the amended rule applied at tokens ["a","b","c"],
window 2, i = 0, j = 1. -/
theorem build_graph_adds_window_pairs_witness :
    1 ≤ 1 ∧ ((1 : Nat) : Int) ≤ 2 ∧
    ((0 : Nat) : Int) + 2 < ((["a", "b", "c"] : List String).length : Int) ∧
    (["a", "b", "c"] : List String).getD 0 "" ≠ (["a", "b", "c"] : List String).getD (0 + 1) "" ∧
    ((["a", "b", "c"] : List String).getD 0 "", (["a", "b", "c"] : List String).getD (0 + 1) "")
      ∈ build_graph ["a", "b", "c"] 2 :=
  ⟨by decide, by decide, by decide, by decide,
    build_graph_adds_window_pairs ["a", "b", "c"] 2 0 1 (by decide) (by decide) (by decide)
      (by decide)⟩

/-- C3 (counterexample): calling build_graph with window_size = 0 (and -1)
does not fail: every operation in the loop body is total and the offset loop
range(1, window_size + 1) is empty, so the call silently returns the empty
graph — exactly the silent coercion the claim rules out. -/
theorem build_graph_zero_window_cex :
    build_graph ["a", "b", "c", "d", "e", "f"] 0 = ∅ ∧
    build_graph ["a", "b", "c", "d", "e", "f"] (-1) = ∅ := by
  refine ⟨?_, ?_⟩ <;> decide

/-- C3 (amended): for every token sequence, build_graph with a non-positive
window size returns the empty graph instead of failing: there is no argument
check in the source (src/app.py:97-103), and the inner loop is empty. -/
theorem build_graph_nonpos_window_silent (words : List String) (w : Int) (hw : w ≤ 0) :
    build_graph words w = ∅ := by
  ext e
  simp only [mem_build_graph, Finset.not_mem_empty, iff_false, not_exists]
  intro i j
  rintro ⟨hi, hj1, hjw, -, -⟩
  omega

/-- C3 (witness): the amended statement applied at tokens ["x","y"] and
window -2. -/
theorem build_graph_nonpos_window_silent_witness :
    (-2 : Int) ≤ 0 ∧ build_graph ["x", "y"] (-2) = ∅ :=
  ⟨by decide, build_graph_nonpos_window_silent ["x", "y"] (-2) (by decide)⟩

/-- C5: every edge of the built graph joins two distinct terms (no
self-loops, even for terms repeated inside the window), and its endpoints
occur within window_size positions of each other somewhere in the token
sequence. -/
theorem build_graph_no_self_loops (words : List String) (w : Int) (hw : 1 ≤ w)
    (a b : String) (hab : (a, b) ∈ build_graph words w) :
    a ≠ b ∧ ∃ p q : Nat, q < words.length ∧ p < q ∧ q - p ≤ w.toNat ∧
      ((words.getD p "" = a ∧ words.getD q "" = b) ∨
       (words.getD p "" = b ∧ words.getD q "" = a)) := by
  obtain ⟨i, j, hi, hj1, hjw, hne, hor⟩ := (mem_build_graph words w (a, b)).mp hab
  have hq : i + j < words.length := by omega
  rcases hor with h | h
  · injection h with h1 h2
    subst h1
    subst h2
    exact ⟨hne, i, i + j, hq, by omega, by omega, Or.inl ⟨rfl, rfl⟩⟩
  · injection h with h1 h2
    subst h1
    subst h2
    exact ⟨Ne.symm hne, i, i + j, hq, by omega, by omega, Or.inr ⟨rfl, rfl⟩⟩

/-- C5 (witness): applied to the edge ("flood","river") of the graph built
from the spec's example tokens with window 2. -/
theorem build_graph_no_self_loops_witness :
    (1 : Int) ≤ 2 ∧
    ("flood", "river") ∈ build_graph ["flood", "river", "flood", "bridge", "river", "flood"] 2 ∧
    ("flood" ≠ "river" ∧ ∃ p q : Nat,
      q < (["flood", "river", "flood", "bridge", "river", "flood"] : List String).length ∧
      p < q ∧ q - p ≤ (2 : Int).toNat ∧
      (((["flood", "river", "flood", "bridge", "river", "flood"] : List String).getD p "" = "flood" ∧
        (["flood", "river", "flood", "bridge", "river", "flood"] : List String).getD q "" = "river") ∨
       ((["flood", "river", "flood", "bridge", "river", "flood"] : List String).getD p "" = "river" ∧
        (["flood", "river", "flood", "bridge", "river", "flood"] : List String).getD q "" = "flood"))) :=
  ⟨by decide, by decide,
    build_graph_no_self_loops ["flood", "river", "flood", "bridge", "river", "flood"] 2
      (by decide) "flood" "river" (by decide)⟩

/-- C8 (counterexample): in the example graph (tokens
["flood","river","flood","bridge","river","flood"], window 2) the
bridge-flood edge IS present: "flood" at position 2 and "bridge" at
position 3 are one position apart, so i = 2, j = 1 adds the edge at
src/app.py:102, contradicting the claim's exclusion. -/
theorem example_bridge_flood_cex :
    ("flood", "bridge") ∈ build_graph ["flood", "river", "flood", "bridge", "river", "flood"] 2 ∧
    ("bridge", "flood") ∈ build_graph ["flood", "river", "flood", "bridge", "river", "flood"] 2 := by
  refine ⟨?_, ?_⟩ <;> decide

/-- C8 (amended): the example graph's edges include {flood,river},
{river,bridge} and also {flood,bridge} (flood at position 2 is adjacent to
bridge at position 3), and there is no self-loop for the repeated term
"flood". -/
theorem example_tokens_edges :
    ("flood", "river") ∈ build_graph ["flood", "river", "flood", "bridge", "river", "flood"] 2 ∧
    ("river", "bridge") ∈ build_graph ["flood", "river", "flood", "bridge", "river", "flood"] 2 ∧
    ("flood", "bridge") ∈ build_graph ["flood", "river", "flood", "bridge", "river", "flood"] 2 ∧
    ("flood", "flood") ∉ build_graph ["flood", "river", "flood", "bridge", "river", "flood"] 2 := by
  refine ⟨?_, ?_, ?_, ?_⟩ <;> decide

/-- The capped loop always lands on some pure power iterate, within the
fuel bound: it has no failure path. -/
theorem pagerankLoop_eq_iterate (G : Finset (String × String)) :
    ∀ (n : Nat) (x : String → ℚ),
      ∃ k, k ≤ n ∧ pagerankLoop G n x = (powerStep G)^[k] x := by
  intro n
  induction n with
  | zero => intro x; exact ⟨0, Nat.le_refl 0, rfl⟩
  | succ n ih =>
    intro x
    by_cases h : l1diff (nodesOf G) (powerStep G x) x < tol
    · refine ⟨1, by omega, ?_⟩
      simp [pagerankLoop, h]
    · obtain ⟨k, hk, heq⟩ := ih (powerStep G x)
      refine ⟨k + 1, by omega, ?_⟩
      rw [Function.iterate_succ_apply]
      simp [pagerankLoop, h, heq]

/-- The edge relation produced by build_graph is symmetric: addEdge stores
both orientations of every pair. -/
theorem build_graph_symm (words : List String) (w : Int) :
    ∀ a b, (a, b) ∈ build_graph words w → (b, a) ∈ build_graph words w := by
  intro a b h
  rw [mem_build_graph] at h ⊢
  obtain ⟨i, j, h1, h2, h3, h4, h5⟩ := h
  refine ⟨i, j, h1, h2, h3, h4, ?_⟩
  rcases h5 with h | h
  · injection h with ha hb
    subst ha
    subst hb
    exact Or.inr rfl
  · injection h with ha hb
    subst ha
    subst hb
    exact Or.inl rfl

/-- Double counting for a symmetric graph: summing every node's received
neighbor shares equals summing the full score of every node that has at
least one neighbor. -/
theorem sum_neighbor_shares (G : Finset (String × String))
    (hsym : ∀ a b, (a, b) ∈ G → (b, a) ∈ G) (x : String → ℚ) :
    ∑ v in nodesOf G, ∑ u in neighbors G v, x u / (degree G u : ℚ) =
      ∑ u in (nodesOf G).filter (fun u => ¬ degree G u = 0), x u := by
  have hfil : ∀ u, (nodesOf G).filter (fun v => (v, u) ∈ G) = neighbors G u := by
    intro u
    rw [neighbors]
    apply Finset.filter_congr
    intro v _
    exact ⟨fun h => hsym v u h, fun h => hsym u v h⟩
  calc
    ∑ v in nodesOf G, ∑ u in neighbors G v, x u / (degree G u : ℚ)
        = ∑ v in nodesOf G, ∑ u in nodesOf G,
            if (v, u) ∈ G then x u / (degree G u : ℚ) else 0 := by
          refine Finset.sum_congr rfl (fun v _ => ?_)
          rw [neighbors, Finset.sum_filter]
    _ = ∑ u in nodesOf G, ∑ v in nodesOf G,
            if (v, u) ∈ G then x u / (degree G u : ℚ) else 0 := Finset.sum_comm
    _ = ∑ u in nodesOf G, (degree G u : ℚ) * (x u / (degree G u : ℚ)) := by
          refine Finset.sum_congr rfl (fun u _ => ?_)
          rw [← Finset.sum_filter, Finset.sum_const, hfil u, nsmul_eq_mul, degree]
    _ = ∑ u in nodesOf G, (if ¬ degree G u = 0 then x u else 0) := by
          refine Finset.sum_congr rfl (fun u _ => ?_)
          by_cases h : degree G u = 0
          · simp [h]
          · rw [if_pos h]
            have hz : ((degree G u : ℚ)) ≠ 0 := Nat.cast_ne_zero.mpr h
            rw [← mul_div_assoc, mul_div_cancel_left₀ _ hz]
    _ = ∑ u in (nodesOf G).filter (fun u => ¬ degree G u = 0), x u :=
          (Finset.sum_filter _ _).symm

/-- One power step preserves the total score mass of a nonempty symmetric
graph exactly. -/
theorem sum_powerStep (G : Finset (String × String))
    (hsym : ∀ a b, (a, b) ∈ G → (b, a) ∈ G)
    (hne : (nodesOf G).Nonempty) (x : String → ℚ)
    (hx : ∑ v in nodesOf G, x v = 1) :
    ∑ v in nodesOf G, powerStep G x v = 1 := by
  have hpos : 0 < (nodesOf G).card := Finset.card_pos.mpr hne
  have hN : ((nodesOf G).card : ℚ) ≠ 0 := Nat.cast_ne_zero.mpr hpos.ne'
  simp only [powerStep]
  rw [Finset.sum_add_distrib, Finset.sum_const, nsmul_eq_mul, ← Finset.mul_sum,
    Finset.sum_add_distrib, sum_neighbor_shares G hsym x, Finset.sum_const, nsmul_eq_mul]
  have h1 : ((nodesOf G).card : ℚ) * ((1 - damping) / ((nodesOf G).card : ℚ)) = 1 - damping := by
    field_simp
  have h2 : ((nodesOf G).card : ℚ) *
      ((∑ u in (nodesOf G).filter (fun u => degree G u = 0), x u) / ((nodesOf G).card : ℚ)) =
      ∑ u in (nodesOf G).filter (fun u => degree G u = 0), x u := by
    field_simp
  rw [h1, h2]
  have hsplit : (∑ u in (nodesOf G).filter (fun u => ¬ degree G u = 0), x u) +
      (∑ u in (nodesOf G).filter (fun u => degree G u = 0), x u) = 1 := by
    rw [add_comm, Finset.sum_filter_add_sum_filter_not, hx]
  rw [hsplit]
  ring

/-- One power step sends score vectors that are non-negative on the node
set to score vectors that are non-negative everywhere. -/
theorem powerStep_nonneg (G : Finset (String × String)) (x : String → ℚ)
    (hx : ∀ v ∈ nodesOf G, 0 ≤ x v) (v : String) : 0 ≤ powerStep G x v := by
  have hd0 : (0 : ℚ) ≤ damping := by norm_num [damping]
  have hd1 : (0 : ℚ) ≤ 1 - damping := by norm_num [damping]
  have hN : (0 : ℚ) ≤ ((nodesOf G).card : ℚ) := Nat.cast_nonneg _
  refine add_nonneg (div_nonneg hd1 hN) (mul_nonneg hd0 (add_nonneg ?_ (div_nonneg ?_ hN)))
  · refine Finset.sum_nonneg (fun u hu => ?_)
    rw [neighbors] at hu
    exact div_nonneg (hx u (Finset.mem_of_mem_filter u hu)) (Nat.cast_nonneg _)
  · refine Finset.sum_nonneg (fun u hu => ?_)
    exact hx u (Finset.mem_of_mem_filter u hu)

/-- The uniform start vector of a nonempty graph sums to one. -/
theorem sum_uniform (G : Finset (String × String)) (hne : (nodesOf G).Nonempty) :
    ∑ v in nodesOf G, uniform G v = 1 := by
  have hpos : 0 < (nodesOf G).card := Finset.card_pos.mpr hne
  have hN : ((nodesOf G).card : ℚ) ≠ 0 := Nat.cast_ne_zero.mpr hpos.ne'
  simp only [uniform]
  rw [Finset.sum_const, nsmul_eq_mul]
  field_simp

/-- Every pure power iterate from the uniform start of a nonempty symmetric
graph stays non-negative on the node set and keeps total mass one. -/
theorem iterate_invariant (G : Finset (String × String))
    (hsym : ∀ a b, (a, b) ∈ G → (b, a) ∈ G)
    (hne : (nodesOf G).Nonempty) (k : Nat) :
    (∀ v ∈ nodesOf G, 0 ≤ (powerStep G)^[k] (uniform G) v) ∧
      ∑ v in nodesOf G, (powerStep G)^[k] (uniform G) v = 1 := by
  induction k with
  | zero =>
    refine ⟨fun v _ => ?_, sum_uniform G hne⟩
    show (0 : ℚ) ≤ uniform G v
    simp only [uniform]
    exact div_nonneg zero_le_one (Nat.cast_nonneg _)
  | succ k ih =>
    rw [Function.iterate_succ_apply']
    exact ⟨fun v _ => powerStep_nonneg G _ ih.1 v, sum_powerStep G hsym hne _ ih.2⟩

/-- C4: the ranker uses damping 0.85, tolerance 1e-6 and an iteration cap
of 100; for every graph it returns some pure power iterate with index at
most the cap (so numerical non-convergence has no failure path: when the
cap is reached the last iterate is the result), and whenever the L1 change
of a step falls below the tolerance the loop stops at that step. -/
theorem pagerank_never_fails (G : Finset (String × String)) :
    damping = 85 / 100 ∧ tol = 1 / 1000000 ∧ maxIter = 100 ∧
    (∃ k, k ≤ maxIter ∧ pagerank G = (powerStep G)^[k] (uniform G)) ∧
    (∀ (n : Nat) (x : String → ℚ), l1diff (nodesOf G) (powerStep G x) x < tol →
      pagerankLoop G (n + 1) x = powerStep G x) := by
  refine ⟨rfl, rfl, rfl, pagerankLoop_eq_iterate G maxIter (uniform G), ?_⟩
  intro n x h
  simp [pagerankLoop, h]

/-- C4 (witness): the iterate characterisation instantiated at the graph
built from the spec's example tokens. -/
theorem pagerank_never_fails_witness :
    ∃ k, k ≤ maxIter ∧
      pagerank (build_graph ["flood", "river", "flood", "bridge", "river", "flood"] 2) =
        (powerStep (build_graph ["flood", "river", "flood", "bridge", "river", "flood"] 2))^[k]
          (uniform (build_graph ["flood", "river", "flood", "bridge", "river", "flood"] 2)) :=
  (pagerank_never_fails (build_graph ["flood", "river", "flood", "bridge", "river", "flood"] 2)).2.2.2.1

/-- C6 (counterexample): six copies of one cleaned token pass the
len(words) > 5 gate of src/app.py:141, yet build_graph returns a graph with
an empty node set (every candidate pair is a skipped self-pair), and the
scores then sum to 0 over the node set — not 1 within 1e-4. -/
theorem pagerank_sum_empty_cex :
    nodesOf (build_graph ["aaa", "aaa", "aaa", "aaa", "aaa", "aaa"] 2) = ∅ ∧
    ¬ (|(∑ v in nodesOf (build_graph ["aaa", "aaa", "aaa", "aaa", "aaa", "aaa"] 2),
          pagerank (build_graph ["aaa", "aaa", "aaa", "aaa", "aaa", "aaa"] 2) v) - 1|
        ≤ 1 / 10000) := by
  have h : nodesOf (build_graph ["aaa", "aaa", "aaa", "aaa", "aaa", "aaa"] 2) = ∅ := by decide
  refine ⟨h, ?_⟩
  rw [h, Finset.sum_empty]
  norm_num

/-- C6 (amended): for every graph produced by the builder whose node set is
nonempty, the returned score map is non-negative on every node and the
scores sum to 1 over the node set, hence within the 1e-4 tolerance. -/
theorem pagerank_nonneg_sum_one (words : List String) (w : Int)
    (hne : (nodesOf (build_graph words w)).Nonempty) :
    (∀ v ∈ nodesOf (build_graph words w), 0 ≤ pagerank (build_graph words w) v) ∧
    |(∑ v in nodesOf (build_graph words w), pagerank (build_graph words w) v) - 1|
      ≤ 1 / 10000 := by
  obtain ⟨k, -, heq⟩ :=
    pagerankLoop_eq_iterate (build_graph words w) maxIter (uniform (build_graph words w))
  have hiter := iterate_invariant (build_graph words w) (build_graph_symm words w) hne k
  have hrank : pagerank (build_graph words w) =
      (powerStep (build_graph words w))^[k] (uniform (build_graph words w)) := heq
  constructor
  · intro v hv
    rw [hrank]
    exact hiter.1 v hv
  · rw [hrank, hiter.2]
    norm_num

/-- C6 (witness): the amended statement applied to the nonempty graph built
from the spec's example tokens. -/
theorem pagerank_nonneg_sum_one_witness :
    "flood" ∈ nodesOf (build_graph ["flood", "river", "flood", "bridge", "river", "flood"] 2) ∧
    ((∀ v ∈ nodesOf (build_graph ["flood", "river", "flood", "bridge", "river", "flood"] 2),
        0 ≤ pagerank (build_graph ["flood", "river", "flood", "bridge", "river", "flood"] 2) v) ∧
      |(∑ v in nodesOf (build_graph ["flood", "river", "flood", "bridge", "river", "flood"] 2),
          pagerank (build_graph ["flood", "river", "flood", "bridge", "river", "flood"] 2) v) - 1|
        ≤ 1 / 10000) :=
  ⟨by decide,
    pagerank_nonneg_sum_one ["flood", "river", "flood", "bridge", "river", "flood"] 2
      ⟨"flood", by decide⟩⟩

/-- C7: with the window coming from the slider (1 to 5, src/app.py:130), an
input whose cleaned token sequence is too short — fewer than 6 tokens, or
fewer than window_size + 1 — is never built or ranked: the gate at
src/app.py:141 skips it, no paper entry is created, and the session renders
the informational message instead of a result. -/
theorem short_input_no_ranking (words : List String) (w : Int)
    (hw1 : 1 ≤ w) (hw5 : w ≤ 5)
    (hshort : words.length < 6 ∨ (words.length : Int) < w + 1) :
    process_file words w = none ∧ app_display words w = Display.info := by
  have hlen : ¬ words.length > 5 := by
    rcases hshort with h | h
    · omega
    · omega
  constructor
  · simp [process_file, hlen]
  · simp [app_display, process_file, hlen]

/-- C7 (witness): the spec's own scenario — a token sequence of length 4
with window 5 — is skipped and the session shows the informational view. -/
theorem short_input_no_ranking_witness :
    (1 : Int) ≤ 5 ∧ (5 : Int) ≤ 5 ∧
    ((["a", "b", "c", "d"] : List String).length < 6 ∨
      ((((["a", "b", "c", "d"] : List String).length) : Int) < 5 + 1)) ∧
    (process_file ["a", "b", "c", "d"] 5 = none ∧
      app_display ["a", "b", "c", "d"] 5 = Display.info) :=
  ⟨by decide, by decide, Or.inl (by decide),
    short_input_no_ranking ["a", "b", "c", "d"] 5 (by decide) (by decide) (Or.inl (by decide))⟩

/-- C9: for a node whose term is already case-folded (as every token out of
the lowercasing text cleaner is), the styled node is emphasised — red
color, size score × 1600, border flag 3 — exactly when its case-folded term
is in the parsed search-term list; a non-matching node keeps the neutral
color and base size score × 1000 with no border flag; and a term absent
from the score map is styled from the fixed default score 0.001 instead of
failing. -/
theorem style_node_spec (pr : String → Option ℚ) (search_input : String) (word : String)
    (hfold : word.toLower = word) :
    (((style_node pr (search_terms_of search_input) word).color = "#FF4B4B" ∧
      (style_node pr (search_terms_of search_input) word).size =
        (pr word).getD (1 / 1000) * 1600 ∧
      (style_node pr (search_terms_of search_input) word).borderWidth = some 3) ↔
      word.toLower ∈ search_terms_of search_input) ∧
    (word.toLower ∉ search_terms_of search_input →
      ((style_node pr (search_terms_of search_input) word).color = "#97C2FC" ∧
       (style_node pr (search_terms_of search_input) word).size =
         (pr word).getD (1 / 1000) * 1000 ∧
       (style_node pr (search_terms_of search_input) word).borderWidth = none)) ∧
    (pr word = none → (pr word).getD (1 / 1000) = 1 / 1000) := by
  rw [hfold]
  refine ⟨⟨?_, ?_⟩, ?_, ?_⟩
  · rintro ⟨hc, -, -⟩
    by_contra hmem
    have hdef : (style_node pr (search_terms_of search_input) word).color = "#97C2FC" := by
      simp [style_node, hmem]
    rw [hdef] at hc
    exact absurd hc (by decide)
  · intro hmem
    refine ⟨?_, ?_, ?_⟩ <;> simp [style_node, hmem]
  · intro hmem
    refine ⟨?_, ?_, ?_⟩ <;> simp [style_node, hmem]
  · intro h
    rw [h]
    rfl

/-- C9 (witness): the styling rule applied at the already-lowercase node
"flood", search box "flood, River", and a score map with no entry for
"flood". -/
theorem style_node_spec_witness :
    ("flood".toLower = "flood") ∧
    ((((style_node (fun _ => none) (search_terms_of "flood, River") "flood").color = "#FF4B4B" ∧
       (style_node (fun _ => none) (search_terms_of "flood, River") "flood").size =
         ((fun (_ : String) => (none : Option ℚ)) "flood").getD (1 / 1000) * 1600 ∧
       (style_node (fun _ => none) (search_terms_of "flood, River") "flood").borderWidth =
         some 3) ↔
       "flood".toLower ∈ search_terms_of "flood, River") ∧
     ("flood".toLower ∉ search_terms_of "flood, River" →
       ((style_node (fun _ => none) (search_terms_of "flood, River") "flood").color = "#97C2FC" ∧
        (style_node (fun _ => none) (search_terms_of "flood, River") "flood").size =
          ((fun (_ : String) => (none : Option ℚ)) "flood").getD (1 / 1000) * 1000 ∧
        (style_node (fun _ => none) (search_terms_of "flood, River") "flood").borderWidth =
          none)) ∧
     ((fun (_ : String) => (none : Option ℚ)) "flood" = none →
       ((fun (_ : String) => (none : Option ℚ)) "flood").getD (1 / 1000) = 1 / 1000)) :=
  ⟨by rw [show "flood".toLower = String.map Char.toLower "flood" from rfl, String.map_eq]
      decide,
    style_node_spec (fun _ => none) "flood, River" "flood"
      (by rw [show "flood".toLower = String.map Char.toLower "flood" from rfl, String.map_eq]
          decide)⟩

/-- C10: with no explicit multiselect override the view is monotone in the
cutoff: every node shown at cutoff m is still shown at any cutoff n ≥ m
(cutoffs are at least 1, as the number input enforces). -/
theorem default_view_monotone (G : Finset (String × String)) (ranked : List String)
    (m n : Nat) (hm : 1 ≤ m) (hmn : m ≤ n) :
    default_view_nodes G ranked m ⊆ default_view_nodes G ranked n := by
  unfold default_view_nodes vis_nodes top_words
  rcases ranked with _ | ⟨r, rs⟩
  · simp
  · have hm' : (r :: rs).take m ≠ [] := by
      cases m with
      | zero => omega
      | succ m => simp [List.take]
    have hn' : (r :: rs).take n ≠ [] := by
      cases n with
      | zero => omega
      | succ n => simp [List.take]
    rw [if_neg hm', if_neg hn']
    intro v hv
    rw [Finset.mem_filter] at hv ⊢
    refine ⟨hv.1, ?_⟩
    have heq : (r :: rs).take m = ((r :: rs).take n).take m := by
      rw [List.take_take, Nat.min_eq_left hmn]
    have hx := hv.2
    rw [heq] at hx
    exact List.take_subset m ((r :: rs).take n) hx

/-- C10 (witness): the monotonicity applied at the graph of ["a","b","c"]
with window 1, ranked order ["b","a","c"], cutoffs 1 ≤ 2. -/
theorem default_view_monotone_witness :
    1 ≤ 1 ∧ (1 : Nat) ≤ 2 ∧
    default_view_nodes (build_graph ["a", "b", "c"] 1) ["b", "a", "c"] 1 ⊆
      default_view_nodes (build_graph ["a", "b", "c"] 1) ["b", "a", "c"] 2 :=
  ⟨by decide, by decide,
    default_view_monotone (build_graph ["a", "b", "c"] 1) ["b", "a", "c"] 1 2
      (by decide) (by decide)⟩

end PaperApp
